import Mathlib

/-!
Verification of the bookmark-grabber processing pipeline: the durable
ledger (DbService over sqlite), the weekly-stats aggregation, the
Telegram message chunking, the agent analysis merge, and the per-item
orchestration loop.  Shallow embedding: the sqlite table is a list of
rows, JS strings are lists of characters where character-level facts
matter, timestamps are naturals (ISO-8601 string order agrees with
numeric order), fallible external calls are `Except` values supplied as
oracles.
-/

namespace Grabber

/-- Lifecycle states stored in the `status` column (`ProcessingStatus`). -/
inductive ProcessingStatus
  | processing
  | completed
  | failed
deriving DecidableEq, Repr

/-- The `Category` enum of `types/index.ts` (the agent schema adds `fun`;
`try` and `fun` are Lean keywords, hence `tryCat` and `funCat`). -/
inductive Category
  | review
  | tryCat
  | knowledge
  | podcast
  | video
  | article
  | tool
  | project
  | funCat
deriving DecidableEq, Repr

/-- The fields of a parsed `raw_data` payload analysis object that
`getWeeklyStats` reads: `tags`, `relevanceScore`, `summary`.  `Option`
models absent JSON keys; scores are integers in the 1..10 schema range. -/
structure Analysis where
  category : Category
  tags : Option (List String)
  relevanceScore : Option Int
  summary : Option String
deriving DecidableEq, Repr

/-- A `raw_data` column value as seen by `JSON.parse` in `getWeeklyStats`:
either malformed (the parse or the tag iteration throws) or a parsed
object with an optional `analysis` key.  The placeholder written by
`tryLock` is the empty object, i.e. `parsed none`. -/
inductive RawData
  | malformed
  | parsed (analysis : Option Analysis)
deriving DecidableEq, Repr

/-- One row of the `bookmarks` table.  `status = none` models a legacy
row whose status value is NULL. -/
structure BookmarkRow where
  tweet_id : String
  processed_at : Nat
  category : Category
  notion_page_id : Option String
  raw_data : RawData
  status : Option ProcessingStatus
deriving DecidableEq, Repr

/-- The `bookmarks` table (`tweet_id` is a unique key; every write goes
through `upsert`, which preserves that invariant). -/
structure Store where
  rows : List BookmarkRow
deriving DecidableEq, Repr

/-- Model of the query `SELECT ... FROM bookmarks WHERE tweet_id = ?`. -/
def findRow (s : Store) (tweetId : String) : Option BookmarkRow :=
  s.rows.find? (fun q => q.tweet_id = tweetId)

/-- Model of `INSERT OR REPLACE INTO bookmarks ...` at the row-list level: replace
the row with the conflicting `tweet_id` (unique key, hence at most one)
if present, else append. -/
def upsertRows (r : BookmarkRow) : List BookmarkRow → List BookmarkRow
  | [] => [r]
  | q :: rest =>
    if q.tweet_id = r.tweet_id then r :: rest else q :: upsertRows r rest

/-- Model of `INSERT OR REPLACE INTO bookmarks ...` on the store. -/
def upsert (s : Store) (r : BookmarkRow) : Store :=
  ⟨upsertRows r s.rows⟩

/-- Model of `DbService.isProcessed`: the row exists and its status is
`completed` or NULL. -/
def DbService.isProcessed (s : Store) (tweetId : String) : Bool :=
  match findRow s tweetId with
  | none => false
  | some row =>
    match row.status with
    | some .completed => true
    | none => true
    | _ => false

/-- The placeholder row inserted by `DbService.tryLock`. -/
def lockRow (tweetId : String) (now : Nat) : BookmarkRow :=
  { tweet_id := tweetId
  , processed_at := now
  , category := .review
  , notion_page_id := none
  , raw_data := .parsed none
  , status := some .processing }

/-- Model of `DbService.tryLock`: refuse when an existing row has status
`completed`, `processing` or NULL; otherwise insert-or-replace the
placeholder row and succeed.  Returns the flag and the updated store. -/
def DbService.tryLock (s : Store) (tweetId : String) (now : Nat) :
    Bool × Store :=
  match findRow s tweetId with
  | some existing =>
    match existing.status with
    | some .completed => (false, s)
    | some .processing => (false, s)
    | none => (false, s)
    | some .failed => (true, upsert s (lockRow tweetId now))
  | none => (true, upsert s (lockRow tweetId now))

/-- Model of `DbService.releaseLock`: `UPDATE bookmarks SET status = ? WHERE
tweet_id = ?`. -/
def DbService.releaseLock (s : Store) (tweetId : String)
    (status : ProcessingStatus) : Store :=
  ⟨s.rows.map (fun q =>
    if q.tweet_id = tweetId then { q with status := some status } else q)⟩

/-- Model of `DbService.markProcessed`: upsert the full record; a missing status
defaults to `completed` (a JS nullish default). -/
def DbService.markProcessed (s : Store) (record : BookmarkRow) : Store :=
  upsert s { record with status := some (record.status.getD .completed) }

/-- Model of `DbService.getStats`: total row count and `GROUP BY category`
counts, with no filter on status or date. -/
def DbService.getStats (s : Store) : Nat × (Category → Nat) :=
  (s.rows.length,
   fun c => (s.rows.filter (fun r => r.category = c)).length)

/-- The condition under which `tryLock` claims an identifier: no row, or
the row status is `failed`. -/
def canClaim (s : Store) (tweetId : String) : Prop :=
  match findRow s tweetId with
  | none => True
  | some r => r.status = some .failed

instance (s : Store) (tweetId : String) : Decidable (canClaim s tweetId) := by
  unfold canClaim
  match findRow s tweetId with
  | none => exact inferInstanceAs (Decidable True)
  | some r => exact inferInstanceAs (Decidable (r.status = some .failed))

/-! ## Weekly statistics (`DbService.getWeeklyStats`) -/

/-- Seven days in milliseconds, the window used by `getWeeklyStats`. -/
def weekMs : Nat := 7 * 24 * 60 * 60 * 1000

/-- Value of `weekAgo`: `now` minus seven days (the ISO string written by the code
compares like the underlying numeric timestamp). -/
def weekAgoOf (now : Nat) : Nat := now - weekMs

/-- The query result of `getWeeklyStats`: rows whose `processed_at` is at
least a week ago, in `ORDER BY processed_at DESC` order. -/
def weeklyRows (s : Store) (now : Nat) : List BookmarkRow :=
  List.insertionSort (fun a b => b.processed_at ≤ a.processed_at)
    (s.rows.filter (fun r => weekAgoOf now ≤ r.processed_at))

/-- A highlight entry of `WeeklyStats`. -/
structure Highlight where
  tweetId : String
  summary : String
  category : Category
deriving DecidableEq, Repr

/-- The `WeeklyStats` result shape (`types/index.ts`); `byCategory` is the
count map as a total function. -/
structure WeeklyStats where
  totalProcessed : Nat
  byCategory : Category → Nat
  topTags : List (String × Nat)
  highlights : List Highlight

/-- The tags of a row as iterated by the stats loop: present only when the
payload parses and `analysis.tags` is set (an empty array iterates zero
times, matching `getD []`). -/
def rowTags (row : BookmarkRow) : List String :=
  match row.raw_data with
  | .parsed (some a) => a.tags.getD []
  | _ => []

/-- The highlight condition of the stats loop:
`analysis?.relevanceScore >= 8` (false when the payload is malformed or
the key is absent). -/
def isHighlightRow (row : BookmarkRow) : Bool :=
  match row.raw_data with
  | .parsed (some a) =>
    match a.relevanceScore with
    | some v => decide ((8 : Int) ≤ v)
    | none => false
  | _ => false

/-- The highlight entry pushed for a row:
`(tweet_id, analysis.summary or empty, category)`. -/
def rowHighlight (row : BookmarkRow) : Highlight :=
  { tweetId := row.tweet_id
  , summary :=
      match row.raw_data with
      | .parsed (some a) => a.summary.getD ""
      | _ => ""
  , category := row.category }

/-- Model of the JS Map update incrementing the count of a tag,
modelled as an insertion-ordered association list. -/
def bumpTag (tag : String) : List (String × Nat) → List (String × Nat)
  | [] => [(tag, 1)]
  | (t, n) :: rest =>
    if t = tag then (t, n + 1) :: rest else (t, n) :: bumpTag tag rest

/-- Per-row update of the tag-count map (skipped when the payload is
malformed or has no tags). -/
def tagStep (m : List (String × Nat)) (row : BookmarkRow) :
    List (String × Nat) :=
  (rowTags row).foldl (fun acc t => bumpTag t acc) m

/-- Per-row update of the highlights list: push while below the cap of
ten. -/
def highlightStep (hs : List Highlight) (row : BookmarkRow) :
    List Highlight :=
  if isHighlightRow row ∧ hs.length < 10 then hs ++ [rowHighlight row]
  else hs

/-- Per-row update of the category counts:
`byCategory[row.category] = (byCategory[row.category] || 0) + 1`. -/
def categoryStep (byCategory : Category → Nat) (row : BookmarkRow) :
    Category → Nat :=
  fun c => if c = row.category then byCategory c + 1 else byCategory c

/-- The loop state of `getWeeklyStats`. -/
structure StatsAcc where
  byCategory : Category → Nat
  tagCounts : List (String × Nat)
  highlights : List Highlight

/-- One iteration of the stats loop.  The three updates touch disjoint
state, so they are given field-wise; tag counting and the highlight push
happen only when the payload parses, which `tagStep`/`isHighlightRow`
encode. -/
def statsStep (acc : StatsAcc) (row : BookmarkRow) : StatsAcc :=
  { byCategory := categoryStep acc.byCategory row
  , tagCounts := tagStep acc.tagCounts row
  , highlights := highlightStep acc.highlights row }

/-- The stats aggregation over a fixed row list.  `topTags` mirrors the
JS `sort((a, b) => b[1] - a[1])` (stable descending by count) followed by
`slice(0, 10)`. -/
def weeklyStatsOfRows (rows : List BookmarkRow) : WeeklyStats :=
  { totalProcessed := rows.length
  , byCategory := (rows.foldl statsStep ⟨fun _ => 0, [], []⟩).byCategory
  , topTags :=
      (List.insertionSort (fun a b => b.2 ≤ a.2)
        ((rows.foldl statsStep ⟨fun _ => 0, [], []⟩).tagCounts)).take 10
  , highlights := (rows.foldl statsStep ⟨fun _ => 0, [], []⟩).highlights }

/-- Model of `DbService.getWeeklyStats` at time `now`. -/
def DbService.getWeeklyStats (s : Store) (now : Nat) : WeeklyStats :=
  weeklyStatsOfRows (weeklyRows s now)

/-- Association-list lookup with default 0 (`tagCounts.get(tag) || 0`). -/
def lookupTag (m : List (String × Nat)) (t : String) : Nat :=
  match m.find? (fun p => p.1 = t) with
  | some p => p.2
  | none => 0

/-- Manual tag tally over a row list: occurrences of `t` among all parsed
payload tag lists. -/
def tagTally (rows : List BookmarkRow) (t : String) : Nat :=
  (rows.flatMap rowTags).count t

/-! ## Telegram chunking (`TelegramService`)

JS strings are modelled as lists of characters so that line splitting
and the `slice(0, 4096)` cap are explicit. -/

/-- Model of the JS split of the text at newline characters; always returns at least one
(possibly empty) line. -/
def splitLines : List Char → List (List Char)
  | [] => [[]]
  | c :: rest =>
    if c = '\n' then [] :: splitLines rest
    else
      match splitLines rest with
      | [] => [[c]]
      | l :: ls => (c :: l) :: ls

/-- Join lines back with a newline between consecutive lines. -/
def joinLines : List (List Char) → List Char
  | [] => []
  | [l] => l
  | l :: ls => l ++ '\n' :: joinLines ls

/-- The loop of `TelegramService.chunkMessage` over the split lines,
carrying the `current` buffer: start a new chunk when
`current.length + line.length + 1 > maxLength`, otherwise append the
line (with a separating newline unless `current` is empty); push the
final non-empty buffer. -/
def chunkLoop (maxLength : Nat) : List (List Char) → List Char →
    List (List Char)
  | [], current => if current.isEmpty then [] else [current]
  | line :: rest, current =>
    if maxLength < current.length + line.length + 1 then
      current :: chunkLoop maxLength rest line
    else
      chunkLoop maxLength rest
        (if current.isEmpty then line else current ++ '\n' :: line)

/-- Model of `TelegramService.chunkMessage`. -/
def TelegramService.chunkMessage (text : List Char) (maxLength : Nat) :
    List (List Char) :=
  chunkLoop maxLength (splitLines text) []

/-- The body `sendMessage` actually transmits: `text.slice(0, 4096)`. -/
def TelegramService.sendMessageBody (text : List Char) : List Char :=
  text.take 4096

/-- The message bodies `sendDigest` transmits: chunk at 4000, then each
`sendMessage` call caps its body at 4096. -/
def TelegramService.sendDigestBodies (digest : List Char) :
    List (List Char) :=
  (TelegramService.chunkMessage digest 4000).map
    TelegramService.sendMessageBody

/-! ## Agent analysis merge (`AgentService.analyze`) -/

/-- The enriched context assembled by `fetchEnrichment`
(`EnrichedContext` in `agent.service.ts`); entries are reduced to the
fields the merge reads. -/
structure EnrichedContext where
  articles : List (String × String)
  transcripts : List (String × String)
  imageDescriptions : List (String × String)
  threadTweets : List (String × String)
deriving DecidableEq, Repr

/-- The object returned by the analysis provider, reduced to the fields
the merge in `analyze` touches. -/
structure AnalysisObject where
  category : Category
  hasArticle : Bool
  hasVideo : Bool
  hasThread : Bool
  relevanceScore : Int
deriving DecidableEq, Repr

/-- The merged analysis `analyze` returns. -/
structure MergedAnalysis where
  category : Category
  hasArticle : Bool
  hasVideo : Bool
  hasThread : Bool
  relevanceScore : Int
  youtubeTranscript : Option String
  articleContent : Option String
  imageAnalysis : List String
deriving DecidableEq, Repr

/-- The pure tail of `AgentService.analyze`: spread the provider object
and overwrite the derived booleans with the router evidence
(`object.hasX || context has evidence`), and attach the first transcript
and article plus all image descriptions. -/
def AgentService.analyze (object : AnalysisObject)
    (context : EnrichedContext) : MergedAnalysis :=
  { category := object.category
  , hasArticle := object.hasArticle || decide (0 < context.articles.length)
  , hasVideo := object.hasVideo || decide (0 < context.transcripts.length)
  , hasThread := object.hasThread || decide (0 < context.threadTweets.length)
  , relevanceScore := object.relevanceScore
  , youtubeTranscript := (context.transcripts.head?).map (fun p => p.2)
  , articleContent := (context.articles.head?).map (fun p => p.2)
  , imageAnalysis := context.imageDescriptions.map (fun p => p.2) }

/-! ## Orchestrator (`Grabber.processTweet`, `Grabber.processBookmarks`)

External calls are oracles: the agent phase (triage + enrichment +
analysis) either throws, decides to skip, or yields an analysis; the two
Notion calls are `Except` values.  A thrown exception is an `Except.error`
propagating to the per-item catch in `processBookmarks`. -/

/-- Outcome of the agent phase for one tweet. -/
inductive AgentOutcome
  | throws
  | skipped
  | analyzed (analysis : Analysis)
deriving DecidableEq, Repr

/-- Model of `Grabber.processTweet` after the claim: commit the skip path, or run
the Notion block under its local try/catch and commit `completed`.
An agent exception escapes as `Except.error`. -/
def processTweet (s : Store) (tweetId : String) (now : Nat)
    (outcome : AgentOutcome) (pageExists : Except Unit Bool)
    (createPage : Except Unit String) : Except Unit Store :=
  match outcome with
  | .throws => .error ()
  | .skipped =>
    .ok (DbService.markProcessed s
      { tweet_id := tweetId, processed_at := now, category := .review
      , notion_page_id := none, raw_data := .parsed none
      , status := some .completed })
  | .analyzed a =>
    match pageExists with
    | .ok true =>
      .ok (DbService.markProcessed s
        { tweet_id := tweetId, processed_at := now, category := a.category
        , notion_page_id := none, raw_data := .parsed (some a)
        , status := some .completed })
    | .ok false =>
      match createPage with
      | .ok pid =>
        .ok (DbService.markProcessed s
          { tweet_id := tweetId, processed_at := now, category := a.category
          , notion_page_id := some pid, raw_data := .parsed (some a)
          , status := some .completed })
      | .error _ =>
        .ok (DbService.markProcessed s
          { tweet_id := tweetId, processed_at := now, category := a.category
          , notion_page_id := none, raw_data := .parsed (some a)
          , status := some .completed })
    | .error _ =>
      .ok (DbService.markProcessed s
        { tweet_id := tweetId, processed_at := now, category := a.category
        , notion_page_id := none, raw_data := .parsed (some a)
        , status := some .completed })

deriving instance DecidableEq for Except

/-- One tweet of a batch together with its oracle behaviours. -/
structure TweetBehavior where
  id : String
  outcome : AgentOutcome
  pageExists : Except Unit Bool
  createPage : Except Unit String
deriving DecidableEq, Repr

/-- The per-item body of the `processBookmarks` loop: skip handled ids,
skip failed claims, and catch a processing exception by releasing the
lock as `failed`. -/
def processItem (s : Store) (now : Nat) (t : TweetBehavior) : Store :=
  if DbService.isProcessed s t.id then s
  else if (DbService.tryLock s t.id now).1 then
    match processTweet (DbService.tryLock s t.id now).2 t.id now t.outcome
        t.pageExists t.createPage with
    | .ok s2 => s2
    | .error _ =>
      DbService.releaseLock (DbService.tryLock s t.id now).2 t.id .failed
  else (DbService.tryLock s t.id now).2

/-- Model of `Grabber.processBookmarks`: fold the per-item body over the batch. -/
def processBookmarks (s : Store) (now : Nat)
    (tweets : List TweetBehavior) : Store :=
  tweets.foldl (fun acc t => processItem acc now t) s

/-- The final status the loop assigns to a claimable tweet: `failed`
when its processing throws, `completed` otherwise. -/
def expectedStatus (t : TweetBehavior) : ProcessingStatus :=
  if t.outcome = .throws then .failed else .completed

/-! ## Store lemmas -/

theorem find?_upsertRows_self (r : BookmarkRow) (rows : List BookmarkRow) :
    (upsertRows r rows).find? (fun q => q.tweet_id = r.tweet_id) = some r := by
  induction rows with
  | nil => exact List.find?_cons_of_pos _ (by simp)
  | cons q rest ih =>
    by_cases h : q.tweet_id = r.tweet_id
    · simp only [upsertRows]
      rw [if_pos h]
      exact List.find?_cons_of_pos _ (by simp)
    · simp only [upsertRows]
      rw [if_neg h, List.find?_cons_of_neg _ (by simpa using h)]
      exact ih

theorem find?_upsertRows_other (r : BookmarkRow) (rows : List BookmarkRow)
    (id2 : String) (h : id2 ≠ r.tweet_id) :
    (upsertRows r rows).find? (fun q => q.tweet_id = id2)
      = rows.find? (fun q => q.tweet_id = id2) := by
  have hr : ¬(r.tweet_id = id2) := fun hx => h hx.symm
  induction rows with
  | nil =>
    simp only [upsertRows]
    rw [List.find?_cons_of_neg _ (by simpa using hr)]
  | cons q rest ih =>
    by_cases hq : q.tweet_id = r.tweet_id
    · have hq2 : ¬(q.tweet_id = id2) := fun hx => hr (hq.symm.trans hx)
      simp only [upsertRows]
      rw [if_pos hq, List.find?_cons_of_neg _ (by simpa using hr),
        List.find?_cons_of_neg _ (by simpa using hq2)]
    · simp only [upsertRows]
      rw [if_neg hq]
      by_cases hq4 : q.tweet_id = id2
      · rw [List.find?_cons_of_pos _ (by simpa using hq4),
          List.find?_cons_of_pos _ (by simpa using hq4)]
      · rw [List.find?_cons_of_neg _ (by simpa using hq4),
          List.find?_cons_of_neg _ (by simpa using hq4)]
        exact ih

theorem findRow_upsert_self (s : Store) (r : BookmarkRow) :
    findRow (upsert s r) r.tweet_id = some r :=
  find?_upsertRows_self r s.rows

theorem findRow_upsert_other (s : Store) (r : BookmarkRow) (id2 : String)
    (h : id2 ≠ r.tweet_id) :
    findRow (upsert s r) id2 = findRow s id2 :=
  find?_upsertRows_other r s.rows id2 h

theorem find?_release_self (rows : List BookmarkRow) (id : String)
    (st : ProcessingStatus) :
    (rows.map (fun q =>
        if q.tweet_id = id then { q with status := some st } else q)).find?
        (fun q => q.tweet_id = id)
      = (rows.find? (fun q => q.tweet_id = id)).map
          (fun r => { r with status := some st }) := by
  induction rows with
  | nil => rfl
  | cons q rest ih =>
    by_cases h : q.tweet_id = id
    · simp only [List.map_cons]
      rw [if_pos h, List.find?_cons_of_pos _ (by simp [h]),
        List.find?_cons_of_pos _ (by simpa using h)]
      rfl
    · simp only [List.map_cons]
      rw [if_neg h, List.find?_cons_of_neg _ (by simpa using h),
        List.find?_cons_of_neg _ (by simpa using h)]
      exact ih

theorem find?_release_other (rows : List BookmarkRow) (id id2 : String)
    (st : ProcessingStatus) (h : id2 ≠ id) :
    (rows.map (fun q =>
        if q.tweet_id = id then { q with status := some st } else q)).find?
        (fun q => q.tweet_id = id2)
      = rows.find? (fun q => q.tweet_id = id2) := by
  induction rows with
  | nil => rfl
  | cons q rest ih =>
    by_cases hq : q.tweet_id = id
    · have hq2 : ¬(q.tweet_id = id2) := fun hx => h (hx.symm.trans hq)
      simp only [List.map_cons]
      rw [if_pos hq, List.find?_cons_of_neg _ (by simp [hq2]),
        List.find?_cons_of_neg _ (by simpa using hq2)]
      exact ih
    · simp only [List.map_cons]
      rw [if_neg hq]
      by_cases hq4 : q.tweet_id = id2
      · rw [List.find?_cons_of_pos _ (by simpa using hq4),
          List.find?_cons_of_pos _ (by simpa using hq4)]
      · rw [List.find?_cons_of_neg _ (by simpa using hq4),
          List.find?_cons_of_neg _ (by simpa using hq4)]
        exact ih

theorem findRow_releaseLock_self (s : Store) (id : String)
    (st : ProcessingStatus) :
    findRow (DbService.releaseLock s id st) id
      = (findRow s id).map (fun r => { r with status := some st }) :=
  find?_release_self s.rows id st

theorem findRow_releaseLock_other (s : Store) (id id2 : String)
    (st : ProcessingStatus) (h : id2 ≠ id) :
    findRow (DbService.releaseLock s id st) id2 = findRow s id2 :=
  find?_release_other s.rows id id2 st h

theorem map_release_id (rows : List BookmarkRow) (id : String)
    (st : ProcessingStatus) (hall : ∀ x ∈ rows, ¬(x.tweet_id = id)) :
    rows.map (fun q =>
        if q.tweet_id = id then { q with status := some st } else q)
      = rows := by
  induction rows with
  | nil => rfl
  | cons q rest ih =>
    simp only [List.map_cons]
    rw [if_neg (hall q (List.mem_cons_self q rest))]
    exact congrArg (q :: ·) (ih fun x hx => hall x (List.mem_cons_of_mem q hx))

theorem releaseLock_no_row (s : Store) (id : String)
    (st : ProcessingStatus) (h : findRow s id = none) :
    DbService.releaseLock s id st = s := by
  have hall := List.find?_eq_none.mp h
  show Store.mk _ = s
  rw [map_release_id s.rows id st (fun x hx => by simpa using hall x hx)]

theorem canClaim_of_findRow_eq {s s2 : Store} {id : String}
    (h : findRow s id = findRow s2 id) : canClaim s id ↔ canClaim s2 id := by
  unfold canClaim
  rw [h]

/-! ## Weekly-stats lemmas -/

theorem statsFold_byCategory (rows : List BookmarkRow) (acc : StatsAcc)
    (c : Category) :
    ((rows.foldl statsStep acc).byCategory) c
      = acc.byCategory c + (rows.filter (fun r => r.category = c)).length := by
  induction rows generalizing acc with
  | nil => simp
  | cons r rest ih =>
    rw [List.foldl_cons, ih]
    show categoryStep acc.byCategory r c + _ = _
    unfold categoryStep
    by_cases h : c = r.category
    · rw [if_pos h, List.filter_cons, if_pos (by simpa using h.symm),
        List.length_cons]
      omega
    · have h2 : ¬(r.category = c) := fun hx => h hx.symm
      rw [if_neg h, List.filter_cons, if_neg (by simpa using h2)]

theorem statsFold_highlights (rows : List BookmarkRow) (acc : StatsAcc) :
    (rows.foldl statsStep acc).highlights
      = rows.foldl highlightStep acc.highlights := by
  induction rows generalizing acc with
  | nil => rfl
  | cons r rest ih => rw [List.foldl_cons, List.foldl_cons, ih]; rfl

theorem statsFold_tagCounts (rows : List BookmarkRow) (acc : StatsAcc) :
    (rows.foldl statsStep acc).tagCounts
      = rows.foldl tagStep acc.tagCounts := by
  induction rows generalizing acc with
  | nil => rfl
  | cons r rest ih => rw [List.foldl_cons, List.foldl_cons, ih]; rfl

theorem highlightStep_eq (hs : List Highlight) (r : BookmarkRow) :
    highlightStep hs r
      = if isHighlightRow r ∧ hs.length < 10 then hs ++ [rowHighlight r]
        else hs := rfl

theorem foldl_highlightStep_spec (rows : List BookmarkRow)
    (hs : List Highlight) (h : hs.length ≤ 10) :
    rows.foldl highlightStep hs
      = hs ++ ((rows.filter isHighlightRow).map rowHighlight).take
          (10 - hs.length) := by
  induction rows generalizing hs with
  | nil => simp
  | cons r rest ih =>
    rw [List.foldl_cons, highlightStep_eq]
    by_cases hr : isHighlightRow r
    · by_cases hlen : hs.length < 10
      · rw [if_pos ⟨hr, hlen⟩, ih (hs ++ [rowHighlight r]) (by simp; omega)]
        have harr : 10 - hs.length = (10 - (hs ++ [rowHighlight r]).length) + 1 := by
          simp
          omega
        simp only [List.filter_cons, hr, if_pos, List.map_cons, harr,
          List.take_succ_cons, List.append_assoc, List.singleton_append]
      · have h10 : hs.length = 10 := le_antisymm h (Nat.not_lt.mp hlen)
        rw [if_neg (fun hc => hlen hc.2), ih hs h, h10]
        simp
  
    · rw [if_neg (fun hc => hr hc.1), ih hs h]
      simp [List.filter_cons, hr]

theorem lookupTag_bumpTag (m : List (String × Nat)) (t t2 : String) :
    lookupTag (bumpTag t m) t2
      = lookupTag m t2 + if t = t2 then 1 else 0 := by
  induction m with
  | nil =>
    by_cases h : t = t2 <;> simp [bumpTag, lookupTag, List.find?, h]
  | cons a rest ih =>
    by_cases ha : a.1 = t
    · simp only [bumpTag, if_pos ha]
      by_cases ha2 : a.1 = t2
      · have ht : t = t2 := ha.symm.trans ha2
        simp [lookupTag, List.find?, ha2, ht]
      · have ht : ¬(t = t2) := fun hx => ha2 (ha.trans hx)
        simp [lookupTag, List.find?, ha2, ht]
    · simp only [bumpTag, if_neg ha]
      by_cases ha2 : a.1 = t2
      · have ht : ¬(t = t2) := fun hx => ha (ha2.trans hx.symm)
        simp [lookupTag, List.find?, ha2, ht]
      · simpa [lookupTag, List.find?, ha2] using ih

theorem lookupTag_foldl_bump (tags : List String)
    (m : List (String × Nat)) (t : String) :
    lookupTag (tags.foldl (fun acc x => bumpTag x acc) m) t
      = lookupTag m t + tags.count t := by
  induction tags generalizing m with
  | nil => simp
  | cons x rest ih =>
    rw [List.foldl_cons, ih (bumpTag x m), lookupTag_bumpTag]
    rw [List.count_cons]
    by_cases h : x = t
    · simp [h]
      omega
    · have h2 : ¬(t = x) := fun hx => h hx.symm
      simp [h, beq_iff_eq, h2]

theorem lookupTag_tagStep (m : List (String × Nat)) (row : BookmarkRow)
    (t : String) :
    lookupTag (tagStep m row) t = lookupTag m t + (rowTags row).count t :=
  lookupTag_foldl_bump (rowTags row) m t

theorem lookupTag_foldl_tagStep (rows : List BookmarkRow)
    (m : List (String × Nat)) (t : String) :
    lookupTag (rows.foldl tagStep m) t = lookupTag m t + tagTally rows t := by
  induction rows generalizing m with
  | nil => simp [tagTally]
  | cons r rest ih =>
    rw [List.foldl_cons, ih (tagStep m r), lookupTag_tagStep]
    unfold tagTally
    rw [List.flatMap_cons, List.count_append]
    omega

theorem mem_keys_bumpTag (m : List (String × Nat)) (t : String)
    (x : String) (hx : x ∈ (bumpTag t m).map (fun p => p.1)) :
    x ∈ m.map (fun p => p.1) ∨ x = t := by
  induction m with
  | nil => simpa [bumpTag] using hx
  | cons a rest ih =>
    by_cases ha : a.1 = t
    · rw [bumpTag, if_pos ha] at hx
      simp only [List.map_cons, List.mem_cons] at hx ⊢
      rcases hx with hx | hx
      · exact Or.inl (Or.inl hx)
      · exact Or.inl (Or.inr hx)
    · rw [bumpTag, if_neg ha] at hx
      simp only [List.map_cons, List.mem_cons] at hx ⊢
      rcases hx with hx | hx
      · exact Or.inl (Or.inl hx)
      · rcases ih hx with h | h
        · exact Or.inl (Or.inr h)
        · exact Or.inr h

theorem nodup_keys_bumpTag (m : List (String × Nat)) (t : String)
    (h : (m.map (fun p => p.1)).Nodup) :
    ((bumpTag t m).map (fun p => p.1)).Nodup := by
  induction m with
  | nil => simp [bumpTag]
  | cons a rest ih =>
    rw [List.map_cons, List.nodup_cons] at h
    by_cases ha : a.1 = t
    · rw [bumpTag, if_pos ha, List.map_cons, List.nodup_cons]
      exact h
    · rw [bumpTag, if_neg ha, List.map_cons, List.nodup_cons]
      refine ⟨fun hmem => ?_, ih h.2⟩
      rcases mem_keys_bumpTag rest t a.1 hmem with hm | hm
      · exact h.1 hm
      · exact ha hm

theorem nodup_keys_foldl_bump (tags : List String)
    (m : List (String × Nat)) (h : (m.map (fun p => p.1)).Nodup) :
    (((tags.foldl (fun acc x => bumpTag x acc) m)).map
      (fun p => p.1)).Nodup := by
  induction tags generalizing m with
  | nil => exact h
  | cons x rest ih => exact ih (bumpTag x m) (nodup_keys_bumpTag m x h)

theorem nodup_keys_foldl_tagStep (rows : List BookmarkRow)
    (m : List (String × Nat)) (h : (m.map (fun p => p.1)).Nodup) :
    ((rows.foldl tagStep m).map (fun p => p.1)).Nodup := by
  induction rows generalizing m with
  | nil => exact h
  | cons r rest ih =>
    exact ih (tagStep m r) (nodup_keys_foldl_bump (rowTags r) m h)

theorem mem_lookupTag (m : List (String × Nat))
    (hnd : (m.map (fun p => p.1)).Nodup) (p : String × Nat) (hp : p ∈ m) :
    lookupTag m p.1 = p.2 := by
  induction m with
  | nil => cases hp
  | cons a rest ih =>
    rw [List.map_cons, List.nodup_cons] at hnd
    rcases List.mem_cons.mp hp with hp | hp
    · subst hp
      simp [lookupTag, List.find?]
    · have ha : ¬(a.1 = p.1) := by
        intro hx
        exact hnd.1 (hx ▸ List.mem_map_of_mem (fun q => q.1) hp)
      unfold lookupTag
      rw [List.find?_cons_of_neg _ (by simpa using ha)]
      exact ih hnd.2 hp

theorem weeklyRows_filter_idem (s : Store) (now : Nat) :
    weeklyRows ⟨s.rows.filter (fun r => weekAgoOf now ≤ r.processed_at)⟩ now
      = weeklyRows s now := by
  unfold weeklyRows
  show List.insertionSort _ (List.filter _ (List.filter _ s.rows)) = _
  rw [List.filter_filter]
  simp

/-! ## Claim C6 -/

/-- Claim C6: `getWeeklyStats` considers exactly the rows whose
`processed_at` is within the last seven days (dropping older rows changes
nothing), counts the window rows grouped by category, reports tag
frequencies that match a manual tally of the parsed payloads, and the
highlights are exactly the window rows with `relevanceScore ≥ 8`, in
encounter order, capped at ten. -/
theorem getWeeklyStats_spec (s : Store) (now : Nat) :
    DbService.getWeeklyStats
        ⟨s.rows.filter (fun r => weekAgoOf now ≤ r.processed_at)⟩ now
      = DbService.getWeeklyStats s now ∧
    (DbService.getWeeklyStats s now).totalProcessed
      = (weeklyRows s now).length ∧
    (∀ c, (DbService.getWeeklyStats s now).byCategory c
      = ((weeklyRows s now).filter (fun r => r.category = c)).length) ∧
    (∀ p ∈ (DbService.getWeeklyStats s now).topTags,
      p.2 = tagTally (weeklyRows s now) p.1) ∧
    (DbService.getWeeklyStats s now).highlights
      = (((weeklyRows s now).filter isHighlightRow).map rowHighlight).take
          10 := by
  refine ⟨?_, rfl, ?_, ?_, ?_⟩
  · exact congrArg weeklyStatsOfRows (weeklyRows_filter_idem s now)
  · intro c
    show ((weeklyRows s now).foldl statsStep ⟨fun _ => 0, [], []⟩).byCategory c
      = _
    rw [statsFold_byCategory]
    simp
  · intro p hp
    have h1 := List.mem_of_mem_take hp
    have h2 : p ∈ ((weeklyRows s now).foldl statsStep
        ⟨fun _ => 0, [], []⟩).tagCounts :=
      (List.Perm.mem_iff (List.perm_insertionSort _ _)).mp h1
    rw [statsFold_tagCounts] at h2
    have hnd := nodup_keys_foldl_tagStep (weeklyRows s now) [] (by simp)
    have hlk := mem_lookupTag _ hnd p h2
    rw [lookupTag_foldl_tagStep] at hlk
    simpa [lookupTag, List.find?] using hlk.symm
  · show ((weeklyRows s now).foldl statsStep ⟨fun _ => 0, [], []⟩).highlights
      = _
    rw [statsFold_highlights, foldl_highlightStep_spec _ _ (by simp)]
    simp

/-- The concrete store used to witness C6: one in-window highlight row,
one in-window low-score row and one out-of-window row. -/
def c6Store : Store :=
  ⟨[⟨"A", 699000000, .tool, none,
      .parsed (some ⟨.tool, some ["ai"], some 9, some "hot"⟩),
      some .completed⟩,
    ⟨"B", 698000000, .review, none,
      .parsed (some ⟨.review, some ["ai"], some 2, none⟩),
      some .failed⟩,
    ⟨"C", 5, .video, none, .malformed, some .completed⟩]⟩

/-- Witness for C6: the specification instantiated on `c6Store` at time
700000000, where the window holds exactly the two recent rows. -/
theorem getWeeklyStats_spec_witness :
    (DbService.getWeeklyStats
        ⟨c6Store.rows.filter
          (fun r => weekAgoOf 700000000 ≤ r.processed_at)⟩ 700000000
      = DbService.getWeeklyStats c6Store 700000000 ∧
     (DbService.getWeeklyStats c6Store 700000000).totalProcessed
      = (weeklyRows c6Store 700000000).length) ∧
    (weeklyRows c6Store 700000000).length = 2 ∧
    (DbService.getWeeklyStats c6Store 700000000).highlights
      = [⟨"A", "hot", .tool⟩] :=
  ⟨⟨(getWeeklyStats_spec c6Store 700000000).1,
    (getWeeklyStats_spec c6Store 700000000).2.1⟩,
   by decide, by decide⟩

/-! ## Claim C9 -/

/-- Claim C9: `getWeeklyStats` and `getStats` do not filter by lifecycle
state: any in-window row in `processing` or `failed` state is counted in
`totalProcessed` and in its per-category count, and `getStats` counts
every row of the table. -/
theorem stats_count_any_status (s : Store) (now : Nat) (r : BookmarkRow)
    (hmem : r ∈ s.rows)
    (_hst : r.status = some .processing ∨ r.status = some .failed)
    (hwin : weekAgoOf now ≤ r.processed_at) :
    1 ≤ (DbService.getWeeklyStats s now).totalProcessed ∧
    1 ≤ (DbService.getWeeklyStats s now).byCategory r.category ∧
    (DbService.getStats s).1 = s.rows.length := by
  have hmemw : r ∈ weeklyRows s now := by
    unfold weeklyRows
    exact (List.Perm.mem_iff (List.perm_insertionSort _ _)).mpr
      (List.mem_filter.mpr ⟨hmem, by simpa using hwin⟩)
  refine ⟨?_, ?_, rfl⟩
  · exact List.length_pos.mpr (List.ne_nil_of_mem hmemw)
  · show 1 ≤ ((weeklyRows s now).foldl statsStep
      ⟨fun _ => 0, [], []⟩).byCategory r.category
    rw [statsFold_byCategory]
    have hm2 : r ∈ (weeklyRows s now).filter
        (fun q => q.category = r.category) :=
      List.mem_filter.mpr ⟨hmemw, by simp⟩
    have hlen := List.length_pos.mpr (List.ne_nil_of_mem hm2)
    omega

/-- Witness for C9: a lone `processing` placeholder row inside the window
is counted. -/
theorem stats_count_any_status_witness :
    (⟨"P", 100, .review, none, .parsed none, some .processing⟩ ∈
      (⟨[⟨"P", 100, .review, none, .parsed none, some .processing⟩]⟩ :
        Store).rows ∧
     weekAgoOf 100
      ≤ (⟨"P", 100, .review, none, .parsed none, some .processing⟩ :
          BookmarkRow).processed_at) ∧
    (1 ≤ (DbService.getWeeklyStats
        ⟨[⟨"P", 100, .review, none, .parsed none, some .processing⟩]⟩
        100).totalProcessed ∧
     1 ≤ (DbService.getWeeklyStats
        ⟨[⟨"P", 100, .review, none, .parsed none, some .processing⟩]⟩
        100).byCategory .review ∧
     (DbService.getStats
        ⟨[⟨"P", 100, .review, none, .parsed none, some .processing⟩]⟩).1
      = (⟨[⟨"P", 100, .review, none, .parsed none, some .processing⟩]⟩ :
          Store).rows.length) :=
  ⟨⟨by decide, by decide⟩,
   stats_count_any_status
     ⟨[⟨"P", 100, .review, none, .parsed none, some .processing⟩]⟩ 100
     ⟨"P", 100, .review, none, .parsed none, some .processing⟩
     (by decide) (Or.inl rfl) (by decide)⟩

/-! ## Orchestrator lemmas -/

theorem canClaim_cases (s : Store) (id : String) (hc : canClaim s id) :
    findRow s id = none ∨
    ∃ r, findRow s id = some r ∧ r.status = some .failed := by
  unfold canClaim at hc
  cases hfind : findRow s id with
  | none => exact Or.inl rfl
  | some r =>
    rw [hfind] at hc
    simp only at hc
    exact Or.inr ⟨r, rfl, hc⟩

theorem tryLock_of_canClaim (s : Store) (id : String) (now : Nat)
    (hc : canClaim s id) :
    DbService.tryLock s id now = (true, upsert s (lockRow id now)) := by
  rcases canClaim_cases s id hc with hfind | ⟨r, hfind, hst⟩
  · unfold DbService.tryLock
    rw [hfind]
  · unfold DbService.tryLock
    rw [hfind]
    simp [hst]

theorem isProcessed_of_canClaim (s : Store) (id : String)
    (hc : canClaim s id) : DbService.isProcessed s id = false := by
  rcases canClaim_cases s id hc with hfind | ⟨r, hfind, hst⟩
  · unfold DbService.isProcessed
    rw [hfind]
  · unfold DbService.isProcessed
    rw [hfind]
    simp [hst]

theorem findRow_tryLock_other (s : Store) (id : String) (now : Nat)
    (id2 : String) (h : id2 ≠ id) :
    findRow (DbService.tryLock s id now).2 id2 = findRow s id2 := by
  unfold DbService.tryLock
  cases hfind : findRow s id with
  | none => exact findRow_upsert_other s (lockRow id now) id2 h
  | some r =>
    cases hst : r.status with
    | none => simp [hst]
    | some st =>
      cases st with
      | completed => simp [hst]
      | processing => simp [hst]
      | failed =>
        simp only [hst]
        exact findRow_upsert_other s (lockRow id now) id2 h

theorem processTweet_ok_shape (s : Store) (id : String) (now : Nat)
    (outcome : AgentOutcome) (pe : Except Unit Bool)
    (cp : Except Unit String) (s2 : Store)
    (h : processTweet s id now outcome pe cp = .ok s2) :
    ∃ row, row.tweet_id = id ∧ row.status = some .completed ∧
      s2 = upsert s row := by
  unfold processTweet at h
  cases outcome with
  | throws => exact absurd h (by simp)
  | skipped => exact ⟨_, rfl, rfl, (Except.ok.inj h).symm⟩
  | analyzed a =>
    cases pe with
    | error e => exact ⟨_, rfl, rfl, (Except.ok.inj h).symm⟩
    | ok b =>
      cases b with
      | true => exact ⟨_, rfl, rfl, (Except.ok.inj h).symm⟩
      | false =>
        cases cp with
        | ok pid => exact ⟨_, rfl, rfl, (Except.ok.inj h).symm⟩
        | error e => exact ⟨_, rfl, rfl, (Except.ok.inj h).symm⟩

theorem processItem_frame (s : Store) (now : Nat) (t : TweetBehavior)
    (id2 : String) (h : id2 ≠ t.id) :
    findRow (processItem s now t) id2 = findRow s id2 := by
  unfold processItem
  by_cases hp : DbService.isProcessed s t.id
  · rw [if_pos hp]
  · rw [if_neg hp]
    by_cases hl : (DbService.tryLock s t.id now).1
    · rw [if_pos hl]
      cases hpt : processTweet (DbService.tryLock s t.id now).2 t.id now
          t.outcome t.pageExists t.createPage with
      | ok s2 =>
        simp only [hpt]
        rcases processTweet_ok_shape _ _ _ _ _ _ _ hpt with
          ⟨row, hrow, _, hs2⟩
        rw [hs2, findRow_upsert_other _ _ _ (hrow ▸ h),
          findRow_tryLock_other s t.id now id2 h]
      | error e =>
        simp only [hpt]
        rw [findRow_releaseLock_other _ _ _ _ h,
          findRow_tryLock_other s t.id now id2 h]
    · rw [if_neg hl]
      exact findRow_tryLock_other s t.id now id2 h

theorem findRow_upsert_self_id (s : Store) (r : BookmarkRow) (id : String)
    (h : r.tweet_id = id) : findRow (upsert s r) id = some r :=
  h ▸ findRow_upsert_self s r

theorem processItem_claimable (s : Store) (now : Nat) (t : TweetBehavior)
    (hc : canClaim s t.id) :
    (findRow (processItem s now t) t.id).map (fun r => r.status)
      = some (some (expectedStatus t)) := by
  unfold processItem
  rw [isProcessed_of_canClaim s t.id hc, tryLock_of_canClaim s t.id now hc]
  simp only [Bool.false_eq_true, if_false, if_true]
  cases houtcome : t.outcome with
  | throws =>
    show (findRow (DbService.releaseLock (upsert s (lockRow t.id now)) t.id
      .failed) t.id).map _ = _
    rw [findRow_releaseLock_self]
    simp [findRow_upsert_self_id, lockRow, expectedStatus, houtcome]
  | skipped =>
    show (findRow (DbService.markProcessed (upsert s (lockRow t.id now)) _)
      t.id).map _ = _
    simp [DbService.markProcessed, findRow_upsert_self_id, expectedStatus,
      houtcome]
  | analyzed a =>
    cases hpe : t.pageExists with
    | error e =>
      show (findRow (DbService.markProcessed (upsert s (lockRow t.id now)) _)
        t.id).map _ = _
      simp [DbService.markProcessed, findRow_upsert_self_id, expectedStatus,
        houtcome]
    | ok b =>
      cases b with
      | true =>
        show (findRow (DbService.markProcessed (upsert s (lockRow t.id now))
          _) t.id).map _ = _
        simp [DbService.markProcessed, findRow_upsert_self_id,
          expectedStatus, houtcome]
      | false =>
        cases hcp : t.createPage with
        | ok pid =>
          show (findRow (DbService.markProcessed
            (upsert s (lockRow t.id now)) _) t.id).map _ = _
          simp [DbService.markProcessed, findRow_upsert_self_id,
            expectedStatus, houtcome]
        | error e =>
          show (findRow (DbService.markProcessed
            (upsert s (lockRow t.id now)) _) t.id).map _ = _
          simp [DbService.markProcessed, findRow_upsert_self_id,
            expectedStatus, houtcome]

theorem processBookmarks_frame (tweets : List TweetBehavior) (s : Store)
    (now : Nat) (id2 : String) (h : ∀ x ∈ tweets, x.id ≠ id2) :
    findRow (processBookmarks s now tweets) id2 = findRow s id2 := by
  induction tweets generalizing s with
  | nil => rfl
  | cons hd rest ih =>
    show findRow (processBookmarks (processItem s now hd) now rest) id2 = _
    rw [ih _ (fun x hx => h x (List.mem_cons_of_mem hd hx))]
    exact processItem_frame s now hd id2
      (fun hx => h hd (List.mem_cons_self hd rest) hx.symm)

/-! ## Claim C4 -/

/-- Claim C4: if the Notion existence check or the page creation throws
while processing an analyzed item, the exception is caught locally and
the ledger record is still committed `completed` with a null
`notion_page_id`; the item does not become `failed`. -/
theorem notion_failure_still_completes (s : Store) (id : String)
    (now : Nat) (a : Analysis) (pe : Except Unit Bool)
    (cp : Except Unit String)
    (h : pe = .error () ∨ (pe = .ok false ∧ cp = .error ())) :
    ∃ s2, processTweet s id now (.analyzed a) pe cp = .ok s2 ∧
      findRow s2 id
        = some ⟨id, now, a.category, none, .parsed (some a),
            some .completed⟩ := by
  rcases h with h | ⟨h1, h2⟩
  · subst h
    exact ⟨_, rfl, findRow_upsert_self_id s _ id rfl⟩
  · subst h1
    subst h2
    exact ⟨_, rfl, findRow_upsert_self_id s _ id rfl⟩

/-- Witness for C4: a failing `createPage` on an empty store still
commits the record as `completed` with no Notion page. -/
theorem notion_failure_still_completes_witness :
    ((Except.ok false : Except Unit Bool) = .error () ∨
      ((Except.ok false : Except Unit Bool) = .ok false ∧
       (Except.error () : Except Unit String) = .error ())) ∧
    ∃ s2, processTweet ⟨[]⟩ "N1" 7
        (.analyzed ⟨.article, none, some 9, some "s"⟩) (.ok false)
        (.error ()) = .ok s2 ∧
      findRow s2 "N1"
        = some ⟨"N1", 7, .article, none,
            .parsed (some ⟨.article, none, some 9, some "s"⟩),
            some .completed⟩ :=
  ⟨Or.inr ⟨rfl, rfl⟩,
   notion_failure_still_completes ⟨[]⟩ "N1" 7
     ⟨.article, none, some 9, some "s"⟩ (.ok false) (.error ())
     (Or.inr ⟨rfl, rfl⟩)⟩

/-! ## Claim C5 -/

/-- Claim C5: in a batch with pairwise distinct identifiers, every
claimable item ends in its own final state — `failed` exactly when its
processing throws (the lock released by the per-item catch), `completed`
otherwise — so an exception in one item never prevents the other items of
the batch from being processed to completion. -/
theorem batch_isolation (s : Store) (now : Nat)
    (tweets : List TweetBehavior) (t : TweetBehavior)
    (hnd : (tweets.map (fun x => x.id)).Nodup) (hmem : t ∈ tweets)
    (hc : canClaim s t.id) :
    (findRow (processBookmarks s now tweets) t.id).map (fun r => r.status)
      = some (some (expectedStatus t)) := by
  induction tweets generalizing s with
  | nil => cases hmem
  | cons hd rest ih =>
    rw [List.map_cons, List.nodup_cons] at hnd
    rcases List.mem_cons.mp hmem with rfl | hmem2
    · show (findRow (processBookmarks (processItem s now t) now rest)
        t.id).map _ = _
      rw [processBookmarks_frame rest (processItem s now t) now t.id
        (fun x hx heq =>
          hnd.1 (heq ▸ List.mem_map_of_mem (fun x => x.id) hx))]
      exact processItem_claimable s now t hc
    · have hne : hd.id ≠ t.id := fun hx =>
        hnd.1 (hx ▸ List.mem_map_of_mem (fun x => x.id) hmem2)
      have hc2 : canClaim (processItem s now hd) t.id :=
        (canClaim_of_findRow_eq
          (processItem_frame s now hd t.id (fun hx => hne hx.symm))).mpr hc
      exact ih (processItem s now hd) hnd.2 hmem2 hc2

/-- Witness for C5: a batch of three fresh items where the middle one
throws; the theorem applied to each shows items one and three complete
and item two fails. -/
theorem batch_isolation_witness :
    (([⟨"B1", .skipped, .ok false, .ok "p1"⟩,
       ⟨"B2", .throws, .ok false, .ok "p2"⟩,
       ⟨"B3", .analyzed ⟨.tool, none, some 9, none⟩, .ok false,
         .ok "p3"⟩] : List TweetBehavior).map (fun x => x.id)).Nodup ∧
    (findRow (processBookmarks ⟨[]⟩ 1
        [⟨"B1", .skipped, .ok false, .ok "p1"⟩,
         ⟨"B2", .throws, .ok false, .ok "p2"⟩,
         ⟨"B3", .analyzed ⟨.tool, none, some 9, none⟩, .ok false,
           .ok "p3"⟩] ) "B1").map (fun r => r.status)
      = some (some .completed) ∧
    (findRow (processBookmarks ⟨[]⟩ 1
        [⟨"B1", .skipped, .ok false, .ok "p1"⟩,
         ⟨"B2", .throws, .ok false, .ok "p2"⟩,
         ⟨"B3", .analyzed ⟨.tool, none, some 9, none⟩, .ok false,
           .ok "p3"⟩] ) "B2").map (fun r => r.status)
      = some (some .failed) ∧
    (findRow (processBookmarks ⟨[]⟩ 1
        [⟨"B1", .skipped, .ok false, .ok "p1"⟩,
         ⟨"B2", .throws, .ok false, .ok "p2"⟩,
         ⟨"B3", .analyzed ⟨.tool, none, some 9, none⟩, .ok false,
           .ok "p3"⟩] ) "B3").map (fun r => r.status)
      = some (some .completed) :=
  ⟨by decide,
   batch_isolation ⟨[]⟩ 1 _ ⟨"B1", .skipped, .ok false, .ok "p1"⟩
     (by decide) (by decide) (by decide),
   batch_isolation ⟨[]⟩ 1 _ ⟨"B2", .throws, .ok false, .ok "p2"⟩
     (by decide) (by decide) (by decide),
   batch_isolation ⟨[]⟩ 1 _
     ⟨"B3", .analyzed ⟨.tool, none, some 9, none⟩, .ok false, .ok "p3"⟩
     (by decide) (by decide) (by decide)⟩

/-! ## Chunking lemmas -/

theorem joinLines_append_single (run : List (List Char)) (l : List Char)
    (h : run ≠ []) :
    joinLines (run ++ [l]) = joinLines run ++ '\n' :: l := by
  induction run with
  | nil => exact absurd rfl h
  | cons a rest ih =>
    cases rest with
    | nil => rfl
    | cons b rest2 =>
      show a ++ '\n' :: joinLines ((b :: rest2) ++ [l]) = _
      rw [ih (by simp)]
      simp [joinLines, List.append_assoc]

theorem chunkLoop_chunks_are_runs (lines0 : List (List Char))
    (maxLength : Nat) (ls : List (List Char)) :
    ∀ (current : List Char) (i : Nat) (run : List (List Char)),
      lines0.drop i = run ++ ls → current = joinLines run →
      ∀ c ∈ chunkLoop maxLength ls current,
        ∃ j k, c = joinLines ((lines0.drop j).take k) := by
  induction ls with
  | nil =>
    intro current i run hdrop hcur c hc
    by_cases he : current.isEmpty
    · simp [chunkLoop, he] at hc
    · rw [chunkLoop, if_neg he] at hc
      rcases List.mem_singleton.mp hc with rfl
      refine ⟨i, run.length, ?_⟩
      rw [List.append_nil] at hdrop
      rw [hdrop, List.take_length, hcur]
  | cons line rest ih =>
    intro current i run hdrop hcur c hc
    have hdrop2 : lines0.drop (i + run.length) = line :: rest := by
      rw [← List.drop_drop, hdrop, List.drop_left]
    by_cases hcond : maxLength < current.length + line.length + 1
    · rw [chunkLoop, if_pos hcond] at hc
      rcases List.mem_cons.mp hc with rfl | hc2
      · refine ⟨i, run.length, ?_⟩
        rw [hdrop, List.take_left, hcur]
      · exact ih line (i + run.length) [line]
          (by rw [hdrop2, List.singleton_append]) rfl c hc2
    · rw [chunkLoop, if_neg hcond] at hc
      by_cases he : current.isEmpty
      · rw [if_pos he] at hc
        exact ih line (i + run.length) [line]
          (by rw [hdrop2, List.singleton_append]) rfl c hc
      · rw [if_neg he] at hc
        have hrun : run ≠ [] := by
          intro hx
          rw [hx] at hcur
          exact he (by simp [hcur, joinLines, List.isEmpty_iff])
        refine ih (current ++ '\n' :: line) i (run ++ [line]) ?_ ?_ c hc
        · rw [hdrop, List.append_assoc, List.singleton_append]
        · rw [joinLines_append_single run line hrun, hcur]

theorem chunkLoop_length_le (maxLength M : Nat) (hM : maxLength ≤ M)
    (ls : List (List Char)) :
    ∀ current, (∀ l ∈ ls, l.length ≤ M) → current.length ≤ M →
      ∀ c ∈ chunkLoop maxLength ls current, c.length ≤ M := by
  induction ls with
  | nil =>
    intro current _ hcur c hc
    by_cases he : current.isEmpty
    · simp [chunkLoop, he] at hc
    · rw [chunkLoop, if_neg he] at hc
      rcases List.mem_singleton.mp hc with rfl
      exact hcur
  | cons line rest ih =>
    intro current hls hcur c hc
    have hline : line.length ≤ M := hls line (List.mem_cons_self line rest)
    have hrest : ∀ l ∈ rest, l.length ≤ M :=
      fun l hl => hls l (List.mem_cons_of_mem line hl)
    by_cases hcond : maxLength < current.length + line.length + 1
    · rw [chunkLoop, if_pos hcond] at hc
      rcases List.mem_cons.mp hc with rfl | hc2
      · exact hcur
      · exact ih line hrest hline c hc2
    · rw [chunkLoop, if_neg hcond] at hc
      by_cases he : current.isEmpty
      · rw [if_pos he] at hc
        exact ih line hrest hline c hc
      · rw [if_neg he] at hc
        refine ih (current ++ '\n' :: line) hrest ?_ c hc
        have : current.length + line.length + 1 ≤ maxLength :=
          Nat.le_of_not_lt hcond
        simp only [List.length_append, List.length_cons]
        omega

theorem splitLines_no_newline (l : List Char) (h : '\n' ∉ l) :
    splitLines l = [l] := by
  induction l with
  | nil => rfl
  | cons c rest ih =>
    have hc : ¬(c = '\n') := fun hx => h (hx ▸ List.mem_cons_self c rest)
    rw [splitLines, if_neg hc, ih (fun hm => h (List.mem_cons_of_mem c hm))]

/-! ## Claim C7 -/

/-- Claim C7 counterexample: a digest that is a single 4097-character
line.  `chunkMessage` keeps the long line whole, but `sendMessage` then
truncates it to 4096 characters, so one transmitted body is not a join
of whole input lines — the line is cut inside a sent message. -/
theorem c7_counterexample :
    ∃ b ∈ TelegramService.sendDigestBodies (List.replicate 4097 'a'),
      ∀ i k,
        b ≠ joinLines
          (((splitLines (List.replicate 4097 'a')).drop i).take k) := by
  have hsplit : splitLines (List.replicate 4097 'a')
      = [List.replicate 4097 'a'] :=
    splitLines_no_newline _ (by
      intro hm
      exact absurd (List.mem_replicate.mp hm).2 (by decide))
  have hrep_ne : List.replicate 4097 'a' ≠ [] := by
    apply List.length_pos.mp
    rw [List.length_replicate]
    omega
  have hne : ¬((List.replicate 4097 'a').isEmpty = true) :=
    fun hx => hrep_ne (List.isEmpty_iff.mp hx)
  have hcond : 4000 < ([] : List Char).length
      + (List.replicate 4097 'a').length + 1 := by
    rw [List.length_nil, List.length_replicate]
    omega
  have hchunks : TelegramService.chunkMessage (List.replicate 4097 'a') 4000
      = [[], List.replicate 4097 'a'] := by
    unfold TelegramService.chunkMessage
    rw [hsplit, chunkLoop, if_pos hcond, chunkLoop, if_neg hne]
  have hmin : min 4096 4097 = 4096 := by omega
  have hbody : TelegramService.sendMessageBody (List.replicate 4097 'a')
      = List.replicate 4096 'a' := by
    unfold TelegramService.sendMessageBody
    rw [List.take_replicate, hmin]
  refine ⟨List.replicate 4096 'a', ?_, ?_⟩
  · unfold TelegramService.sendDigestBodies
    rw [hchunks, List.map_cons, List.map_cons, List.map_nil, hbody]
    exact List.mem_cons_of_mem _ (List.mem_cons_self _ _)
  · intro i k heq
    rw [hsplit] at heq
    have hlen := congrArg List.length heq
    rw [List.length_replicate] at hlen
    match i, k with
    | 0, 0 =>
      rw [List.drop_zero, List.take_zero] at hlen
      simp only [joinLines, List.length_nil] at hlen
      omega
    | 0, (k + 1) =>
      rw [List.drop_zero, List.take_succ_cons, List.take_nil] at hlen
      simp only [joinLines, List.length_replicate] at hlen
      omega
    | (i + 1), k =>
      rw [List.drop_succ_cons, List.drop_nil, List.take_nil] at hlen
      simp only [joinLines, List.length_nil] at hlen
      omega

/-- Claim C7 (amended): provided every line of the digest is at most
4096 characters long, every transmitted body is at most 4096 characters
and is a newline-join of a consecutive run of whole input lines — no
line is split across or truncated within a sent message.  (Without the
length proviso a single over-long line is truncated mid-line by the
`slice(0, 4096)` cap, as the counterexample shows.) -/
theorem sendDigest_line_boundaries (digest : List Char)
    (h : ∀ l ∈ splitLines digest, l.length ≤ 4096) :
    ∀ b ∈ TelegramService.sendDigestBodies digest,
      b.length ≤ 4096 ∧
      ∃ i k, b = joinLines (((splitLines digest).drop i).take k) := by
  intro b hb
  rcases List.mem_map.mp hb with ⟨c, hc, rfl⟩
  have hcl : c.length ≤ 4096 :=
    chunkLoop_length_le 4000 4096 (by omega) (splitLines digest) []
      h (by simp) c hc
  have htake : TelegramService.sendMessageBody c = c :=
    List.take_of_length_le hcl
  rw [htake]
  exact ⟨hcl,
    chunkLoop_chunks_are_runs (splitLines digest) 4000 (splitLines digest)
      [] 0 [] (by simp) rfl c hc⟩

/-- Witness for the amended C7 on the two-line digest
`hello` / `world`. -/
theorem sendDigest_line_boundaries_witness :
    (∀ l ∈ splitLines (String.toList "hello\nworld"), l.length ≤ 4096) ∧
    ∀ b ∈ TelegramService.sendDigestBodies (String.toList "hello\nworld"),
      b.length ≤ 4096 ∧
      ∃ i k,
        b = joinLines
          (((splitLines (String.toList "hello\nworld")).drop i).take k) :=
  ⟨by decide, sendDigest_line_boundaries _ (by decide)⟩

/-! ## Claim C1 -/

/-- Claim C1 counterexample: a ledger whose only record for `T1` is in
state `processing` (claimed but never released); `tryLock` on `T1`
returns `false`, not `true` as the claim states. -/
theorem c1_counterexample :
    (findRow ⟨[⟨"T1", 0, .review, none, .parsed none, some .processing⟩]⟩
        "T1").map (fun r => r.status) = some (some .processing) ∧
    (DbService.tryLock
        ⟨[⟨"T1", 0, .review, none, .parsed none, some .processing⟩]⟩
        "T1" 99).1 = false := by
  constructor
  · rfl
  · rfl

/-- Claim C1 (amended): an identifier whose ledger record is in state
`processing` is NOT re-claimable: `tryLock` returns `false` and leaves
the store unchanged.  Only absent records and `failed` records are
claimable, so a crash mid-item leaves the identifier permanently
unclaimable. -/
theorem tryLock_processing_not_reclaimable (s : Store) (id : String)
    (now : Nat) (r : BookmarkRow) (hfind : findRow s id = some r)
    (hst : r.status = some .processing) :
    DbService.tryLock s id now = (false, s) := by
  unfold DbService.tryLock
  rw [hfind]
  simp [hst]

/-- Witness for the amended C1 at the counterexample store. -/
theorem tryLock_processing_not_reclaimable_witness :
    findRow ⟨[⟨"T1", 0, .review, none, .parsed none, some .processing⟩]⟩ "T1"
        = some ⟨"T1", 0, .review, none, .parsed none, some .processing⟩ ∧
    DbService.tryLock
        ⟨[⟨"T1", 0, .review, none, .parsed none, some .processing⟩]⟩ "T1" 99
      = (false, ⟨[⟨"T1", 0, .review, none, .parsed none, some .processing⟩]⟩) :=
  ⟨by decide,
   tryLock_processing_not_reclaimable _ "T1" 99
     ⟨"T1", 0, .review, none, .parsed none, some .processing⟩
     (by decide) rfl⟩

/-! ## Claim C2 -/

/-- Claim C2: `tryLock` succeeds exactly when no record exists or the
status of the existing record is `failed`; records in `completed`,
`processing` or NULL status refuse the claim.  The second conjunct is the
scenario of the spec on an initially empty store: claim `T1` succeeds, a
second claim fails, releasing as `failed` makes a third claim succeed. -/
theorem tryLock_iff_canClaim :
    (∀ (s : Store) (id : String) (now : Nat),
      (DbService.tryLock s id now).1 = true ↔ canClaim s id) ∧
    ((DbService.tryLock ⟨[]⟩ "T1" 0).1 = true ∧
     (DbService.tryLock (DbService.tryLock ⟨[]⟩ "T1" 0).2 "T1" 1).1 = false ∧
     (DbService.tryLock
        (DbService.releaseLock (DbService.tryLock ⟨[]⟩ "T1" 0).2 "T1" .failed)
        "T1" 2).1 = true) := by
  constructor
  · intro s id now
    unfold DbService.tryLock canClaim
    match hfind : findRow s id with
    | none => simp
    | some r =>
      match hst : r.status with
      | some .completed => simp [hst]
      | some .processing => simp [hst]
      | none => simp [hst]
      | some .failed => simp [hst]
  · exact ⟨by decide, by decide, by decide⟩

/-- Witness for C2: the universally quantified part applied on the empty
store. -/
theorem tryLock_iff_canClaim_witness :
    (DbService.tryLock ⟨[]⟩ "T2" 7).1 = true :=
  (tryLock_iff_canClaim.1 ⟨[]⟩ "T2" 7).mpr (by decide)

/-! ## Claim C3 -/

/-- Claim C3: `isProcessed` is true exactly when a record exists whose
status is `completed` or NULL (legacy rows count as handled); records in
`processing` or `failed` state do not. -/
theorem isProcessed_iff (s : Store) (id : String) :
    DbService.isProcessed s id = true ↔
      ∃ r, findRow s id = some r ∧
        (r.status = some .completed ∨ r.status = none) := by
  unfold DbService.isProcessed
  match hfind : findRow s id with
  | none => simp
  | some r =>
    match hst : r.status with
    | some .completed => simp [hst]
    | some .processing => simp [hst]
    | some .failed => simp [hst]
    | none => simp [hst]

/-- Witness for C3: a legacy record with no status value counts as
handled. -/
theorem isProcessed_iff_witness :
    DbService.isProcessed ⟨[⟨"L1", 3, .tool, none, .malformed, none⟩]⟩ "L1"
      = true :=
  (isProcessed_iff ⟨[⟨"L1", 3, .tool, none, .malformed, none⟩]⟩ "L1").mpr
    ⟨⟨"L1", 3, .tool, none, .malformed, none⟩, by decide, Or.inr rfl⟩

/-! ## Claim C8 -/

/-- Claim C8: `analyze` merges the router evidence into the derived
booleans: any article makes `hasArticle` true, any transcript makes
`hasVideo` true, any thread tweet makes `hasThread` true, whatever the
provider returned. -/
theorem analyze_merges_router_evidence (o : AnalysisObject)
    (ctx : EnrichedContext) :
    (ctx.articles ≠ [] → (AgentService.analyze o ctx).hasArticle = true) ∧
    (ctx.transcripts ≠ [] → (AgentService.analyze o ctx).hasVideo = true) ∧
    (ctx.threadTweets ≠ [] → (AgentService.analyze o ctx).hasThread = true) := by
  refine ⟨fun h => ?_, fun h => ?_, fun h => ?_⟩ <;>
    simp [AgentService.analyze, List.length_pos, h]

/-- Witness for C8: a provider object with all flags false is overridden
by one article, one transcript and one thread tweet. -/
theorem analyze_merges_router_evidence_witness :
    ((⟨[("u", "c")], [("v", "t")], [], [("i", "x")]⟩ :
        EnrichedContext).articles ≠ [] ∧
     (AgentService.analyze ⟨.review, false, false, false, 5⟩
        ⟨[("u", "c")], [("v", "t")], [], [("i", "x")]⟩).hasArticle = true) ∧
    (AgentService.analyze ⟨.review, false, false, false, 5⟩
        ⟨[("u", "c")], [("v", "t")], [], [("i", "x")]⟩).hasVideo = true ∧
    (AgentService.analyze ⟨.review, false, false, false, 5⟩
        ⟨[("u", "c")], [("v", "t")], [], [("i", "x")]⟩).hasThread = true :=
  ⟨⟨by decide,
    (analyze_merges_router_evidence ⟨.review, false, false, false, 5⟩
      ⟨[("u", "c")], [("v", "t")], [], [("i", "x")]⟩).1 (by decide)⟩,
   (analyze_merges_router_evidence ⟨.review, false, false, false, 5⟩
      ⟨[("u", "c")], [("v", "t")], [], [("i", "x")]⟩).2.1 (by decide),
   (analyze_merges_router_evidence ⟨.review, false, false, false, 5⟩
      ⟨[("u", "c")], [("v", "t")], [], [("i", "x")]⟩).2.2 (by decide)⟩

/-! ## Claim C10 -/

/-- Claim C10: a successful `tryLock` over a previously `failed` record
replaces the whole row with the placeholder (`review`, empty payload,
null Notion reference, claim-time timestamp); `releaseLock` rewrites only
the status field, keeps every other row untouched, and is a no-op when no
record exists. -/
theorem tryLock_replaces_releaseLock_frames (s : Store) (id : String)
    (now : Nat) (st : ProcessingStatus) :
    (∀ r, findRow s id = some r → r.status = some .failed →
      (DbService.tryLock s id now).1 = true ∧
      findRow (DbService.tryLock s id now).2 id
        = some ⟨id, now, .review, none, .parsed none, some .processing⟩) ∧
    (∀ r, findRow s id = some r →
      findRow (DbService.releaseLock s id st) id
        = some { r with status := some st }) ∧
    (∀ id2, id2 ≠ id →
      findRow (DbService.releaseLock s id st) id2 = findRow s id2) ∧
    (findRow s id = none → DbService.releaseLock s id st = s) := by
  refine ⟨fun r hfind hst => ?_, fun r hfind => ?_, fun id2 h => ?_,
    fun h => ?_⟩
  · unfold DbService.tryLock
    rw [hfind]
    simp only [hst]
    exact ⟨trivial, findRow_upsert_self s (lockRow id now)⟩
  · rw [findRow_releaseLock_self, hfind]
    rfl
  · exact findRow_releaseLock_other s id id2 st h
  · exact releaseLock_no_row s id st h

/-- Witness for C10 at a store holding a rich `failed` record for `T9`
and an unrelated record `K`: the re-claim resets every field of `T9`,
and releasing `K` as `completed` changes only its status. -/
theorem tryLock_replaces_releaseLock_frames_witness :
    (findRow ⟨[⟨"T9", 5, .tool, some "pg", .malformed, some .failed⟩,
               ⟨"K", 6, .video, none, .parsed none, some .processing⟩]⟩ "T9"
      = some ⟨"T9", 5, .tool, some "pg", .malformed, some .failed⟩) ∧
    ((DbService.tryLock
        ⟨[⟨"T9", 5, .tool, some "pg", .malformed, some .failed⟩,
          ⟨"K", 6, .video, none, .parsed none, some .processing⟩]⟩ "T9" 42).1
      = true ∧
     findRow (DbService.tryLock
        ⟨[⟨"T9", 5, .tool, some "pg", .malformed, some .failed⟩,
          ⟨"K", 6, .video, none, .parsed none, some .processing⟩]⟩ "T9" 42).2
        "T9"
      = some ⟨"T9", 42, .review, none, .parsed none, some .processing⟩) ∧
    (findRow (DbService.releaseLock
        ⟨[⟨"T9", 5, .tool, some "pg", .malformed, some .failed⟩,
          ⟨"K", 6, .video, none, .parsed none, some .processing⟩]⟩ "K"
        .completed) "K"
      = some ⟨"K", 6, .video, none, .parsed none, some .completed⟩) ∧
    (DbService.releaseLock
        ⟨[⟨"T9", 5, .tool, some "pg", .malformed, some .failed⟩,
          ⟨"K", 6, .video, none, .parsed none, some .processing⟩]⟩ "ABSENT"
        .failed
      = ⟨[⟨"T9", 5, .tool, some "pg", .malformed, some .failed⟩,
          ⟨"K", 6, .video, none, .parsed none, some .processing⟩]⟩) :=
  ⟨by decide,
   (tryLock_replaces_releaseLock_frames _ "T9" 42 .failed).1
     ⟨"T9", 5, .tool, some "pg", .malformed, some .failed⟩ (by decide) rfl,
   (tryLock_replaces_releaseLock_frames _ "K" 42 .completed).2.1
     ⟨"K", 6, .video, none, .parsed none, some .processing⟩ (by decide),
   (tryLock_replaces_releaseLock_frames _ "ABSENT" 42 .failed).2.2.2
     (by decide)⟩

end Grabber
